import Mathlib

/-!
Shallow embedding of the ZoKrates constant-propagation pass
(`src/zokrates_core/src/static_analysis/propagation.rs`) and the typed
abstract syntax it operates on.

The typed AST (`typed_absy`), the `Variable` type and the prime-field type
are declared in files of the repository that are not part of this snapshot;
they are modelled from the specification (spec.md §3 "Data model") and from
how `propagation.rs` pattern-matches on them.

The field `T : Field` is modelled as `ZMod p` for a prime `p`: the spec
(§3) asks for a fixed prime field with exact add/sub/mul/div, integer
exponentiation via the decimal rendering of the exponent, total comparison
on integer representatives, and decimal string rendering; for `ZMod p` the
decimal rendering of an element is the decimal rendering of `ZMod.val`, so
`n.to_dec_string().parse::<usize>()` is modelled by `ZMod.val`.

Rust panics in the pass abort it; they are modelled by `Except PropError`.
-/

namespace ZoKrates

/-- Modelled from the spec: `Variable` (§3) — a named, typed reference with
three constructors: field-element variable, boolean variable, and
field-array variable with a fixed size. Equality respects name and
type/size. -/
inductive Variable : Type where
  | field_element (name : String)
  | boolean (name : String)
  | field_array (name : String) (size : Nat)
deriving DecidableEq, Repr

mutual

/-- Modelled from the spec: `FieldElementExpression` (§3). -/
inductive FieldElementExpression (p : Nat) : Type where
  | Number (n : ZMod p)
  | Identifier (id : String)
  | Add (e1 e2 : FieldElementExpression p)
  | Sub (e1 e2 : FieldElementExpression p)
  | Mult (e1 e2 : FieldElementExpression p)
  | Div (e1 e2 : FieldElementExpression p)
  | Pow (e1 e2 : FieldElementExpression p)
  | IfElse (condition : BooleanExpression p) (consequence alternative : FieldElementExpression p)
  | FunctionCall (id : String) (arguments : List (TypedExpression p))
  | Select (array : FieldElementArrayExpression p) (index : FieldElementExpression p)

/-- Modelled from the spec: `BooleanExpression` (§3). -/
inductive BooleanExpression (p : Nat) : Type where
  | Value (v : Bool)
  | Identifier (id : String)
  | Eq (e1 e2 : FieldElementExpression p)
  | Lt (e1 e2 : FieldElementExpression p)
  | Le (e1 e2 : FieldElementExpression p)
  | Gt (e1 e2 : FieldElementExpression p)
  | Ge (e1 e2 : FieldElementExpression p)

/-- Modelled from the spec: `FieldElementArrayExpression` (§3). -/
inductive FieldElementArrayExpression (p : Nat) : Type where
  | Identifier (size : Nat) (id : String)
  | Value (size : Nat) (exprs : List (FieldElementExpression p))

/-- Modelled from the spec: the umbrella `TypedExpression` (§3). -/
inductive TypedExpression (p : Nat) : Type where
  | FieldElement (e : FieldElementExpression p)
  | Boolean (e : BooleanExpression p)
  | FieldElementArray (e : FieldElementArrayExpression p)

end

/-- Modelled from the spec: `TypedAssignee` (§3) — a write target, either a
whole variable or an indexed element; the index is a field expression. -/
inductive TypedAssignee (p : Nat) : Type where
  | Identifier (v : Variable)
  | ArrayElement (base : TypedAssignee p) (index : FieldElementExpression p)

/-- Modelled from the spec: result types carried by a `FunctionCall`
expression list (§3). -/
inductive ZType : Type where
  | FieldElement
  | Boolean
  | FieldElementArray (size : Nat)
deriving DecidableEq, Repr

/-- Modelled from the spec: `TypedExpressionList` (§3) — currently only
`FunctionCall(id, args, result-types)`. -/
inductive TypedExpressionList (p : Nat) : Type where
  | FunctionCall (id : String) (arguments : List (TypedExpression p)) (types : List ZType)

/-- Modelled from the spec: `TypedStatement` (§3). The payload of `For` is
the loop variable, its bounds and the body; the pass rejects it before
looking inside. -/
inductive TypedStatement (p : Nat) : Type where
  | Return (expressions : List (TypedExpression p))
  | Definition (assignee : TypedAssignee p) (expr : TypedExpression p)
  | Declaration (v : Variable)
  | Condition (e1 e2 : TypedExpression p)
  | For (v : Variable) (start stop : ZMod p) (body : List (TypedStatement p))
  | MultipleDefinition (vars : List Variable) (l : TypedExpressionList p)

/-- Modelled from the spec: `TypedFunction` (§3) — signature plus ordered
statements; only the statements are rewritten by the pass (`..self`). -/
structure TypedFunction (p : Nat) : Type where
  id : String
  arguments : List Variable
  returns : List ZType
  statements : List (TypedStatement p)

/-- Modelled from the spec: `TypedProg` (§3) — ordered sequence of
functions. -/
structure TypedProg (p : Nat) : Type where
  functions : List (TypedFunction p)

/-- Error kinds of the pass (spec §7): Rust panics modelled as values.
`OutOfBounds` also covers the `Vec` index panic that a malformed array
literal (`len(v) ≠ size`) would trigger, since both abort the pass. -/
inductive PropError : Type where
  | OutOfBounds
  | LoopNotUnrolled
  | TypeInvariant
deriving DecidableEq, Repr

mutual

/-- Structural equality on field expressions (the `PartialEq` derived on
the Rust AST), used for `HashMap` key comparison. -/
def feBeq {p : Nat} : FieldElementExpression p → FieldElementExpression p → Bool
  | .Number n1, e2 => match e2 with
    | .Number n2 => n1 = n2
    | _ => false
  | .Identifier i1, e2 => match e2 with
    | .Identifier i2 => i1 = i2
    | _ => false
  | .Add a1 b1, e2 => match e2 with
    | .Add a2 b2 => feBeq a1 a2 && feBeq b1 b2
    | _ => false
  | .Sub a1 b1, e2 => match e2 with
    | .Sub a2 b2 => feBeq a1 a2 && feBeq b1 b2
    | _ => false
  | .Mult a1 b1, e2 => match e2 with
    | .Mult a2 b2 => feBeq a1 a2 && feBeq b1 b2
    | _ => false
  | .Div a1 b1, e2 => match e2 with
    | .Div a2 b2 => feBeq a1 a2 && feBeq b1 b2
    | _ => false
  | .Pow a1 b1, e2 => match e2 with
    | .Pow a2 b2 => feBeq a1 a2 && feBeq b1 b2
    | _ => false
  | .IfElse c1 t1 e1, e2 => match e2 with
    | .IfElse c2 t2 f2 => boBeq c1 c2 && feBeq t1 t2 && feBeq e1 f2
    | _ => false
  | .FunctionCall i1 a1, e2 => match e2 with
    | .FunctionCall i2 a2 => i1 = i2 && teListBeq a1 a2
    | _ => false
  | .Select a1 i1, e2 => match e2 with
    | .Select a2 i2 => faBeq a1 a2 && feBeq i1 i2
    | _ => false
termination_by structural x _ => x

/-- Structural equality on boolean expressions. -/
def boBeq {p : Nat} : BooleanExpression p → BooleanExpression p → Bool
  | .Value v1, e2 => match e2 with
    | .Value v2 => v1 = v2
    | _ => false
  | .Identifier i1, e2 => match e2 with
    | .Identifier i2 => i1 = i2
    | _ => false
  | .Eq a1 b1, e2 => match e2 with
    | .Eq a2 b2 => feBeq a1 a2 && feBeq b1 b2
    | _ => false
  | .Lt a1 b1, e2 => match e2 with
    | .Lt a2 b2 => feBeq a1 a2 && feBeq b1 b2
    | _ => false
  | .Le a1 b1, e2 => match e2 with
    | .Le a2 b2 => feBeq a1 a2 && feBeq b1 b2
    | _ => false
  | .Gt a1 b1, e2 => match e2 with
    | .Gt a2 b2 => feBeq a1 a2 && feBeq b1 b2
    | _ => false
  | .Ge a1 b1, e2 => match e2 with
    | .Ge a2 b2 => feBeq a1 a2 && feBeq b1 b2
    | _ => false
termination_by structural x _ => x

/-- Structural equality on array expressions. -/
def faBeq {p : Nat} : FieldElementArrayExpression p → FieldElementArrayExpression p → Bool
  | .Identifier s1 i1, e2 => match e2 with
    | .Identifier s2 i2 => s1 = s2 && i1 = i2
    | _ => false
  | .Value s1 v1, e2 => match e2 with
    | .Value s2 v2 => s1 = s2 && feListBeq v1 v2
    | _ => false
termination_by structural x _ => x

/-- Structural equality on typed expressions. -/
def teBeq {p : Nat} : TypedExpression p → TypedExpression p → Bool
  | .FieldElement e1, e2 => match e2 with
    | .FieldElement f2 => feBeq e1 f2
    | _ => false
  | .Boolean e1, e2 => match e2 with
    | .Boolean f2 => boBeq e1 f2
    | _ => false
  | .FieldElementArray e1, e2 => match e2 with
    | .FieldElementArray f2 => faBeq e1 f2
    | _ => false
termination_by structural x _ => x

/-- Structural equality on lists of typed expressions. -/
def teListBeq {p : Nat} : List (TypedExpression p) → List (TypedExpression p) → Bool
  | [], l2 => match l2 with
    | [] => true
    | _ => false
  | e1 :: r1, l2 => match l2 with
    | e2 :: r2 => teBeq e1 e2 && teListBeq r1 r2
    | _ => false
termination_by structural x _ => x

/-- Structural equality on lists of field expressions. -/
def feListBeq {p : Nat} : List (FieldElementExpression p) → List (FieldElementExpression p) → Bool
  | [], l2 => match l2 with
    | [] => true
    | _ => false
  | e1 :: r1, l2 => match l2 with
    | e2 :: r2 => feBeq e1 e2 && feListBeq r1 r2
    | _ => false
termination_by structural x _ => x

end

/-- Structural equality on assignees, used as the `HashMap` key equality. -/
def taBeq {p : Nat} : TypedAssignee p → TypedAssignee p → Bool
  | .Identifier v1, a2 => match a2 with
    | .Identifier v2 => v1 = v2
    | _ => false
  | .ArrayElement b1 i1, a2 => match a2 with
    | .ArrayElement b2 i2 => taBeq b1 b2 && feBeq i1 i2
    | _ => false
termination_by structural x _ => x

/-- The propagation environment (`HashMap<TypedAssignee, TypedExpression>`),
modelled as an association list with at most one entry per key. -/
abbrev Env (p : Nat) : Type := List (TypedAssignee p × TypedExpression p)

/-- `HashMap::get`. -/
def envGet {p : Nat} (env : Env p) (k : TypedAssignee p) : Option (TypedExpression p) :=
  match env with
  | [] => none
  | (k', v) :: rest => if taBeq k' k then some v else envGet rest k

/-- `HashMap::insert` (insert or overwrite). -/
def envInsert {p : Nat} (env : Env p) (k : TypedAssignee p) (v : TypedExpression p) : Env p :=
  (k, v) :: env.filter (fun kv => !taBeq kv.1 k)

/-- `HashMap::remove`. -/
def envRemove {p : Nat} (env : Env p) (k : TypedAssignee p) : Env p :=
  env.filter (fun kv => !taBeq kv.1 k)

mutual

/-- `impl PropagateWithContext<T> for FieldElementExpression<T>`
(propagation.rs lines 30-115). The `functions` argument is threaded but
never read, as in the source. -/
def fePropagate {p : Nat} [Fact (Nat.Prime p)] (env : Env p) (fns : List (TypedFunction p)) :
    FieldElementExpression p → Except PropError (FieldElementExpression p)
  | .Number n => .ok (.Number n)
  | .Identifier id =>
    match envGet env (.Identifier (.field_element id)) with
    | some (.FieldElement e) => .ok e
    | some _ => .error .TypeInvariant
    | none => .ok (.Identifier id)
  | .Add e1 e2 => do
    match (← fePropagate env fns e1), (← fePropagate env fns e2) with
    | .Number n1, .Number n2 => pure (.Number (n1 + n2))
    | e1', e2' => pure (.Add e1' e2')
  | .Sub e1 e2 => do
    match (← fePropagate env fns e1), (← fePropagate env fns e2) with
    | .Number n1, .Number n2 => pure (.Number (n1 - n2))
    | e1', e2' => pure (.Sub e1' e2')
  | .Mult e1 e2 => do
    match (← fePropagate env fns e1), (← fePropagate env fns e2) with
    | .Number n1, .Number n2 => pure (.Number (n1 * n2))
    | e1', e2' => pure (.Mult e1' e2')
  | .Div e1 e2 => do
    match (← fePropagate env fns e1), (← fePropagate env fns e2) with
    | .Number n1, .Number n2 => pure (.Number (n1 / n2))
    | e1', e2' => pure (.Div e1' e2')
  | .Pow e1 e2 => do
    match (← fePropagate env fns e1), (← fePropagate env fns e2) with
    | .Number n1, .Number n2 => pure (.Number (n1 ^ n2.val))
    | e1', e2' => pure (.Pow e1' e2')
  | .IfElse condition consequence alternative => do
    let consequence ← fePropagate env fns consequence
    let alternative ← fePropagate env fns alternative
    match (← boPropagate env fns condition) with
    | .Value true => pure consequence
    | .Value false => pure alternative
    | c => pure (.IfElse c consequence alternative)
  | .FunctionCall id arguments => do
    pure (.FunctionCall id (← teListPropagate env fns arguments))
  | .Select array index => do
    let array ← faPropagate env fns array
    let index ← fePropagate env fns index
    match array, index with
    | .Value size v, .Number n =>
      if n.val < size then
        match v.get? n.val with
        | some e => pure e
        | none => .error .OutOfBounds
      else .error .OutOfBounds
    | .Identifier size id, .Number n =>
      match envGet env (.ArrayElement (.Identifier (.field_array id size)) (.Number n)) with
      | some (.FieldElement e) => pure e
      | some _ => .error .TypeInvariant
      | none => pure (.Select (.Identifier size id) (.Number n))
    | a, i => pure (.Select a i)

/-- `impl PropagateWithContext<T> for BooleanExpression<T>`
(propagation.rs lines 136-206). Comparisons use the total order on the
integer representatives (`ZMod.val`). -/
def boPropagate {p : Nat} [Fact (Nat.Prime p)] (env : Env p) (fns : List (TypedFunction p)) :
    BooleanExpression p → Except PropError (BooleanExpression p)
  | .Value v => .ok (.Value v)
  | .Identifier id =>
    match envGet env (.Identifier (.boolean id)) with
    | some (.Boolean e) => .ok e
    | some _ => .error .TypeInvariant
    | none => .ok (.Identifier id)
  | .Eq e1 e2 => do
    let e1 ← fePropagate env fns e1
    let e2 ← fePropagate env fns e2
    match e1, e2 with
    | .Number n1, .Number n2 => pure (.Value (decide (n1 = n2)))
    | e1, e2 => pure (.Eq e1 e2)
  | .Lt e1 e2 => do
    let e1 ← fePropagate env fns e1
    let e2 ← fePropagate env fns e2
    match e1, e2 with
    | .Number n1, .Number n2 => pure (.Value (decide (n1.val < n2.val)))
    | e1, e2 => pure (.Lt e1 e2)
  | .Le e1 e2 => do
    let e1 ← fePropagate env fns e1
    let e2 ← fePropagate env fns e2
    match e1, e2 with
    | .Number n1, .Number n2 => pure (.Value (decide (n1.val ≤ n2.val)))
    | e1, e2 => pure (.Le e1 e2)
  | .Gt e1 e2 => do
    let e1 ← fePropagate env fns e1
    let e2 ← fePropagate env fns e2
    match e1, e2 with
    | .Number n1, .Number n2 => pure (.Value (decide (n2.val < n1.val)))
    | e1, e2 => pure (.Gt e1 e2)
  | .Ge e1 e2 => do
    let e1 ← fePropagate env fns e1
    let e2 ← fePropagate env fns e2
    match e1, e2 with
    | .Number n1, .Number n2 => pure (.Value (decide (n2.val ≤ n1.val)))
    | e1, e2 => pure (.Ge e1 e2)

/-- `impl PropagateWithContext<T> for FieldElementArrayExpression<T>`
(propagation.rs lines 117-134). -/
def faPropagate {p : Nat} [Fact (Nat.Prime p)] (env : Env p) (fns : List (TypedFunction p)) :
    FieldElementArrayExpression p → Except PropError (FieldElementArrayExpression p)
  | .Identifier size id =>
    match envGet env (.Identifier (.field_array id size)) with
    | some (.FieldElementArray e) => .ok e
    | some _ => .error .TypeInvariant
    | none => .ok (.Identifier size id)
  | .Value size exprs => do
    pure (.Value size (← feListPropagate env fns exprs))

/-- `impl PropagateWithContext<T> for TypedExpression<T>`
(propagation.rs lines 20-28). -/
def tePropagate {p : Nat} [Fact (Nat.Prime p)] (env : Env p) (fns : List (TypedFunction p)) :
    TypedExpression p → Except PropError (TypedExpression p)
  | .FieldElement e => do pure (.FieldElement (← fePropagate env fns e))
  | .Boolean e => do pure (.Boolean (← boPropagate env fns e))
  | .FieldElementArray e => do pure (.FieldElementArray (← faPropagate env fns e))

/-- Propagation of a `Vec<TypedExpression>` element by element, in order. -/
def teListPropagate {p : Nat} [Fact (Nat.Prime p)] (env : Env p) (fns : List (TypedFunction p)) :
    List (TypedExpression p) → Except PropError (List (TypedExpression p))
  | [] => .ok []
  | e :: rest => do
    let e' ← tePropagate env fns e
    let rest' ← teListPropagate env fns rest
    pure (e' :: rest')

/-- Propagation of a `Vec<FieldElementExpression>` element by element. -/
def feListPropagate {p : Nat} [Fact (Nat.Prime p)] (env : Env p) (fns : List (TypedFunction p)) :
    List (FieldElementExpression p) → Except PropError (List (FieldElementExpression p))
  | [] => .ok []
  | e :: rest => do
    let e' ← fePropagate env fns e
    let rest' ← feListPropagate env fns rest
    pure (e' :: rest')

end

/-- `impl TypedExpressionList<T>::propagate` (propagation.rs lines
208-216). -/
def telPropagate {p : Nat} [Fact (Nat.Prime p)] (env : Env p) (fns : List (TypedFunction p)) :
    TypedExpressionList p → Except PropError (TypedExpressionList p)
  | .FunctionCall id arguments types => do
    pure (.FunctionCall id (← teListPropagate env fns arguments) types)

/-- `array.iter().all(|e| matches Number)`. -/
def isNumber {p : Nat} : FieldElementExpression p → Bool
  | .Number _ => true
  | _ => false

/-- `impl TypedStatement<T>::propagate` (propagation.rs lines 218-298).
Returns the updated environment together with the optionally emitted
statement; `&mut` mutation of the map is modelled by returning the new
environment. The inner `n.val < v.length` test models the `Vec` index
write, which in Rust panics when the length invariant is broken. -/
def stPropagate {p : Nat} [Fact (Nat.Prime p)] (env : Env p) (fns : List (TypedFunction p)) :
    TypedStatement p → Except PropError (Env p × Option (TypedStatement p))
  | .Return expressions => do
    pure (env, some (.Return (← teListPropagate env fns expressions)))
  | .Definition (.Identifier var) expr => do
    match (← tePropagate env fns expr) with
    | .Boolean (.Value b) =>
      pure (envInsert env (.Identifier var) (.Boolean (.Value b)), none)
    | .FieldElement (.Number n) =>
      pure (envInsert env (.Identifier var) (.FieldElement (.Number n)), none)
    | .FieldElementArray (.Value size array) =>
      if array.all isNumber then
        pure (envInsert env (.Identifier var) (.FieldElementArray (.Value size array)), none)
      else
        pure (env, some (.Definition (.Identifier var) (.FieldElementArray (.Value size array))))
    | e => pure (env, some (.Definition (.Identifier var) e))
  | .Definition (.ArrayElement (.Identifier var) index) expr => do
    let index ← fePropagate env fns index
    let expr ← tePropagate env fns expr
    match index, expr with
    | .Number n, .FieldElement (.Number m) =>
      match envGet env (.Identifier var) with
      | none => pure (env, none)
      | some (.FieldElementArray (.Value size v)) =>
        if n.val < size then
          if n.val < v.length then
            pure (envInsert env (.Identifier var)
              (.FieldElementArray (.Value size (v.set n.val (.Number m)))), none)
          else .error .OutOfBounds
        else .error .OutOfBounds
      | some _ => .error .TypeInvariant
    | index, expr =>
      pure (envRemove env (.Identifier var),
        some (.Definition (.ArrayElement (.Identifier var) index) expr))
  | .Condition e1 e2 => do
    pure (env, some (.Condition (← tePropagate env fns e1) (← tePropagate env fns e2)))
  | .For _ _ _ _ => .error .LoopNotUnrolled
  | .MultipleDefinition vars l => do
    pure (env, some (.MultipleDefinition vars (← telPropagate env fns l)))
  | s => pure (env, some s)

/-- `filter_map` over the statements of a function body, threading the
environment left to right. -/
def stListPropagate {p : Nat} [Fact (Nat.Prime p)] (fns : List (TypedFunction p)) :
    Env p → List (TypedStatement p) → Except PropError (Env p × List (TypedStatement p))
  | env, [] => .ok (env, [])
  | env, s :: rest => do
    let (env1, out) ← stPropagate env fns s
    let (env2, outs) ← stListPropagate fns env1 rest
    pure (env2, out.toList ++ outs)

/-- `impl Propagate<T> for TypedFunction<T>` (propagation.rs lines
301-311): fresh empty environment, statements propagated in order. -/
def fnPropagate {p : Nat} [Fact (Nat.Prime p)] (fns : List (TypedFunction p)) (f : TypedFunction p) :
    Except PropError (TypedFunction p) := do
  let (_, statements) ← stListPropagate fns [] f.statements
  pure { f with statements := statements }

/-- The loop of `TypedProg::propagate`: each function is propagated with
the already-propagated prefix as context, then pushed. -/
def fnsPropagate {p : Nat} [Fact (Nat.Prime p)] :
    List (TypedFunction p) → List (TypedFunction p) → Except PropError (List (TypedFunction p))
  | [], acc => .ok acc
  | f :: rest, acc => do
    let f' ← fnPropagate acc f
    fnsPropagate rest (acc ++ [f'])

/-- `TypedProg::propagate` (propagation.rs lines 313-327). -/
def progPropagate {p : Nat} [Fact (Nat.Prime p)] (prog : TypedProg p) : Except PropError (TypedProg p) := do
  pure { prog with functions := ← fnsPropagate prog.functions [] }

/-! ### Literal shapes and environment invariants -/

/-- A *fully literal* expression in the sense of spec §3 invariant 3: a
field `Number`, a boolean `Value`, or an array `Value` all of whose
elements are `Number`s. -/
def isLiteral {p : Nat} : TypedExpression p → Bool
  | .FieldElement (.Number _) => true
  | .Boolean (.Value _) => true
  | .FieldElementArray (.Value _ v) => v.all isNumber
  | _ => false

/-- The environment invariant: every bound value is fully literal. -/
def envLit {p : Nat} (env : Env p) : Bool :=
  env.all (fun kv => isLiteral kv.2)

/-- Every key of the environment is an `Identifier` assignee. -/
def envKeysId {p : Nat} (env : Env p) : Bool :=
  env.all (fun kv => match kv.1 with | .Identifier _ => true | .ArrayElement _ _ => false)

theorem okBind {ε α β : Type} (a : α) (f : α → Except ε β) :
    (Except.ok a >>= f) = f a := rfl

theorem errBind {ε α β : Type} (e : ε) (f : α → Except ε β) :
    (Except.error e >>= f : Except ε β) = Except.error e := rfl

theorem envGet_lit {p : Nat} {env : Env p} {k : TypedAssignee p} {v : TypedExpression p}
    (hEnv : envLit env = true) (h : envGet env k = some v) : isLiteral v = true := by
  induction env with
  | nil => simp [envGet] at h
  | cons kv rest ih =>
    simp only [envLit, List.all_cons, Bool.and_eq_true] at hEnv
    rw [envGet] at h
    by_cases hb : taBeq kv.1 k
    · rw [if_pos hb] at h
      cases h
      exact hEnv.1
    · rw [if_neg hb] at h
      exact ih hEnv.2 h

theorem envLit_filter {p : Nat} {env : Env p} (f : TypedAssignee p × TypedExpression p → Bool)
    (hEnv : envLit env = true) : envLit (env.filter f) = true := by
  simp only [envLit, List.all_eq_true] at hEnv ⊢
  exact fun kv hkv => hEnv kv (List.mem_of_mem_filter hkv)

theorem envLit_insert {p : Nat} {env : Env p} {k : TypedAssignee p} {v : TypedExpression p}
    (hEnv : envLit env = true) (hv : isLiteral v = true) :
    envLit (envInsert env k v) = true := by
  simp only [envInsert, envLit, List.all_cons, Bool.and_eq_true]
  exact ⟨hv, envLit_filter _ hEnv⟩

theorem all_isNumber_set {p : Nat} {v : List (FieldElementExpression p)}
    (h : v.all isNumber = true) (i : Nat) (m : ZMod p) :
    (v.set i (.Number m)).all isNumber = true := by
  simp only [List.all_eq_true] at h ⊢
  intro x hx
  rcases List.mem_or_eq_of_mem_set hx with hmem | rfl
  · exact h x hmem
  · rfl

/-- Field `Number`s are untouched by propagation, so an all-`Number` list
propagates to itself in any environment. -/
theorem feListPropagate_allNumber {p : Nat} [Fact (Nat.Prime p)] (env : Env p)
    (fns : List (TypedFunction p)) (v : List (FieldElementExpression p))
    (h : v.all isNumber = true) : feListPropagate env fns v = .ok v := by
  induction v with
  | nil => rfl
  | cons x rest ih =>
    simp only [List.all_cons, Bool.and_eq_true] at h
    obtain ⟨h1, h2⟩ := h
    cases x with
    | Number n =>
      rw [feListPropagate, fePropagate, okBind, ih h2, okBind]
      rfl
    | Identifier i => exact absurd h1 (by simp [isNumber])
    | Add a b => exact absurd h1 (by simp [isNumber])
    | Sub a b => exact absurd h1 (by simp [isNumber])
    | Mult a b => exact absurd h1 (by simp [isNumber])
    | Div a b => exact absurd h1 (by simp [isNumber])
    | Pow a b => exact absurd h1 (by simp [isNumber])
    | IfElse c t e => exact absurd h1 (by simp [isNumber])
    | FunctionCall i a => exact absurd h1 (by simp [isNumber])
    | Select a i => exact absurd h1 (by simp [isNumber])

/-- Elements of a list fixed by propagation are themselves fixed. -/
theorem feListPropagate_elem {p : Nat} [Fact (Nat.Prime p)] {env : Env p}
    {fns : List (TypedFunction p)} {v : List (FieldElementExpression p)}
    (h : feListPropagate env fns v = .ok v) {x : FieldElementExpression p} (hx : x ∈ v) :
    fePropagate env fns x = .ok x := by
  induction v with
  | nil => cases hx
  | cons y rest ih =>
    rw [feListPropagate] at h
    rcases h1 : fePropagate env fns y with a | r1
    · rw [h1, errBind] at h
      cases h
    · rw [h1, okBind] at h
      rcases h2 : feListPropagate env fns rest with a | r2
      · rw [h2, errBind] at h
        cases h
      · rw [h2, okBind] at h
        obtain ⟨hy, hr⟩ := List.cons.inj (Except.ok.inj h)
        rw [hr] at h2
        rcases List.mem_cons.mp hx with rfl | hx
        · rw [h1, hy]
        · exact ih h2 hx

/-- Inversion of array-value propagation: the result is the value whose
elements are the propagated elements. -/
theorem faValue_inv {p : Nat} [Fact (Nat.Prime p)] {env : Env p}
    {fns : List (TypedFunction p)} {size : Nat} {v : List (FieldElementExpression p)}
    {r : FieldElementArrayExpression p} (h : faPropagate env fns (.Value size v) = .ok r) :
    ∃ w, feListPropagate env fns v = .ok w ∧ r = .Value size w := by
  rw [faPropagate] at h
  rcases hv : feListPropagate env fns v with a | w <;> rw [hv] at h
  · rw [errBind] at h
    cases h
  · rw [okBind] at h
    exact ⟨w, rfl, (Except.ok.inj h).symm⟩

/-! ### Fixed points: propagation output re-propagates to itself

Under an environment whose values are all fully literal, the result of
propagating any expression is a fixed point of propagation under the empty
environment (and arbitrary function context). This is the expression-level
core of the idempotence property. -/

mutual

theorem feFix {p : Nat} [Fact (Nat.Prime p)] (env : Env p) (fns fns2 : List (TypedFunction p))
    (hEnv : envLit env = true) (e : FieldElementExpression p) :
    ∀ e', fePropagate env fns e = .ok e' → fePropagate [] fns2 e' = .ok e' := by
  cases e with
  | Number n =>
    intro e' h
    rw [fePropagate] at h
    cases Except.ok.inj h
    rfl
  | Identifier id =>
    intro e' h
    rw [fePropagate] at h
    split at h
    · rename_i heq
      cases Except.ok.inj h
      have hlit := envGet_lit hEnv heq
      cases e' <;> simp [isLiteral] at hlit
      rfl
    · cases h
    · cases Except.ok.inj h
      rfl
  | Add e1 e2 =>
    intro e' h
    rw [fePropagate] at h
    rcases h1 : fePropagate env fns e1 with a | r1 <;> rw [h1] at h
    · rw [errBind] at h
      cases h
    rw [okBind] at h
    rcases h2 : fePropagate env fns e2 with a | r2 <;> rw [h2] at h
    · rw [errBind] at h
      cases h
    rw [okBind] at h
    have ih1 := feFix env fns fns2 hEnv e1 r1 h1
    have ih2 := feFix env fns fns2 hEnv e2 r2 h2
    split at h
    · cases Except.ok.inj h
      rfl
    · rename_i hne
      cases Except.ok.inj h
      rw [fePropagate, ih1, okBind, ih2, okBind]
      split
      · exact (hne _ _ rfl rfl).elim
      · rfl
  | Sub e1 e2 =>
    intro e' h
    rw [fePropagate] at h
    rcases h1 : fePropagate env fns e1 with a | r1 <;> rw [h1] at h
    · rw [errBind] at h
      cases h
    rw [okBind] at h
    rcases h2 : fePropagate env fns e2 with a | r2 <;> rw [h2] at h
    · rw [errBind] at h
      cases h
    rw [okBind] at h
    have ih1 := feFix env fns fns2 hEnv e1 r1 h1
    have ih2 := feFix env fns fns2 hEnv e2 r2 h2
    split at h
    · cases Except.ok.inj h
      rfl
    · rename_i hne
      cases Except.ok.inj h
      rw [fePropagate, ih1, okBind, ih2, okBind]
      split
      · exact (hne _ _ rfl rfl).elim
      · rfl
  | Mult e1 e2 =>
    intro e' h
    rw [fePropagate] at h
    rcases h1 : fePropagate env fns e1 with a | r1 <;> rw [h1] at h
    · rw [errBind] at h
      cases h
    rw [okBind] at h
    rcases h2 : fePropagate env fns e2 with a | r2 <;> rw [h2] at h
    · rw [errBind] at h
      cases h
    rw [okBind] at h
    have ih1 := feFix env fns fns2 hEnv e1 r1 h1
    have ih2 := feFix env fns fns2 hEnv e2 r2 h2
    split at h
    · cases Except.ok.inj h
      rfl
    · rename_i hne
      cases Except.ok.inj h
      rw [fePropagate, ih1, okBind, ih2, okBind]
      split
      · exact (hne _ _ rfl rfl).elim
      · rfl
  | Div e1 e2 =>
    intro e' h
    rw [fePropagate] at h
    rcases h1 : fePropagate env fns e1 with a | r1 <;> rw [h1] at h
    · rw [errBind] at h
      cases h
    rw [okBind] at h
    rcases h2 : fePropagate env fns e2 with a | r2 <;> rw [h2] at h
    · rw [errBind] at h
      cases h
    rw [okBind] at h
    have ih1 := feFix env fns fns2 hEnv e1 r1 h1
    have ih2 := feFix env fns fns2 hEnv e2 r2 h2
    split at h
    · cases Except.ok.inj h
      rfl
    · rename_i hne
      cases Except.ok.inj h
      rw [fePropagate, ih1, okBind, ih2, okBind]
      split
      · exact (hne _ _ rfl rfl).elim
      · rfl
  | Pow e1 e2 =>
    intro e' h
    rw [fePropagate] at h
    rcases h1 : fePropagate env fns e1 with a | r1 <;> rw [h1] at h
    · rw [errBind] at h
      cases h
    rw [okBind] at h
    rcases h2 : fePropagate env fns e2 with a | r2 <;> rw [h2] at h
    · rw [errBind] at h
      cases h
    rw [okBind] at h
    have ih1 := feFix env fns fns2 hEnv e1 r1 h1
    have ih2 := feFix env fns fns2 hEnv e2 r2 h2
    split at h
    · cases Except.ok.inj h
      rfl
    · rename_i hne
      cases Except.ok.inj h
      rw [fePropagate, ih1, okBind, ih2, okBind]
      split
      · exact (hne _ _ rfl rfl).elim
      · rfl
  | IfElse condition consequence alternative =>
    intro e' h
    rw [fePropagate] at h
    rcases hc : fePropagate env fns consequence with a | rc <;> rw [hc] at h
    · rw [errBind] at h
      cases h
    rw [okBind] at h
    rcases ha : fePropagate env fns alternative with a | ra <;> rw [ha] at h
    · rw [errBind] at h
      cases h
    rw [okBind] at h
    rcases hb : boPropagate env fns condition with a | rb <;> rw [hb] at h
    · rw [errBind] at h
      cases h
    rw [okBind] at h
    have ihc := feFix env fns fns2 hEnv consequence rc hc
    have iha := feFix env fns fns2 hEnv alternative ra ha
    have ihb := boFix env fns fns2 hEnv condition rb hb
    split at h
    · cases Except.ok.inj h
      exact ihc
    · cases Except.ok.inj h
      exact iha
    · rename_i hne1 hne2
      cases Except.ok.inj h
      rw [fePropagate, ihc, okBind, iha, okBind, ihb, okBind]
      split
      · exact (hne1 rfl).elim
      · exact (hne2 rfl).elim
      · rfl
  | FunctionCall id arguments =>
    intro e' h
    rw [fePropagate] at h
    rcases hl : teListPropagate env fns arguments with a | rl <;> rw [hl] at h
    · rw [errBind] at h
      cases h
    rw [okBind] at h
    cases Except.ok.inj h
    have ihl := teListFix env fns fns2 hEnv arguments rl hl
    rw [fePropagate, ihl, okBind]
    rfl
  | Select array index =>
    intro e' h
    rw [fePropagate] at h
    rcases ha : faPropagate env fns array with a | ra <;> rw [ha] at h
    · rw [errBind] at h
      cases h
    rw [okBind] at h
    rcases hi : fePropagate env fns index with a | ri <;> rw [hi] at h
    · rw [errBind] at h
      cases h
    rw [okBind] at h
    have iha := faFix env fns fns2 hEnv array ra ha
    have ihi := feFix env fns fns2 hEnv index ri hi
    split at h
    · rename_i size v n
      split at h
      · split at h
        · rename_i e0 hget
          cases Except.ok.inj h
          obtain ⟨w, hw, hval⟩ := faValue_inv iha
          obtain ⟨hs, hvw⟩ := FieldElementArrayExpression.Value.inj hval
          rw [← hvw] at hw
          exact feListPropagate_elem hw (List.get?_mem hget)
        · cases h
      · cases h
    · rename_i size id n
      split at h
      · rename_i heq
        cases Except.ok.inj h
        have hlit := envGet_lit hEnv heq
        cases e' <;> simp [isLiteral] at hlit
        rfl
      · cases h
      · cases Except.ok.inj h
        rfl
    · rename_i hne1 hne2
      cases Except.ok.inj h
      rw [fePropagate, iha, okBind, ihi, okBind]
      split
      · exact (hne1 _ _ _ rfl rfl).elim
      · exact (hne2 _ _ _ rfl rfl).elim
      · rfl

theorem boFix {p : Nat} [Fact (Nat.Prime p)] (env : Env p) (fns fns2 : List (TypedFunction p))
    (hEnv : envLit env = true) (e : BooleanExpression p) :
    ∀ e', boPropagate env fns e = .ok e' → boPropagate [] fns2 e' = .ok e' := by
  cases e with
  | Value v =>
    intro e' h
    rw [boPropagate] at h
    cases Except.ok.inj h
    rfl
  | Identifier id =>
    intro e' h
    rw [boPropagate] at h
    split at h
    · rename_i heq
      cases Except.ok.inj h
      have hlit := envGet_lit hEnv heq
      cases e' <;> simp [isLiteral] at hlit
      rfl
    · cases h
    · cases Except.ok.inj h
      rfl
  | Eq e1 e2 =>
    intro e' h
    rw [boPropagate] at h
    rcases h1 : fePropagate env fns e1 with a | r1 <;> rw [h1] at h
    · rw [errBind] at h
      cases h
    rw [okBind] at h
    rcases h2 : fePropagate env fns e2 with a | r2 <;> rw [h2] at h
    · rw [errBind] at h
      cases h
    rw [okBind] at h
    have ih1 := feFix env fns fns2 hEnv e1 r1 h1
    have ih2 := feFix env fns fns2 hEnv e2 r2 h2
    split at h
    · cases Except.ok.inj h
      rfl
    · rename_i hne
      cases Except.ok.inj h
      rw [boPropagate, ih1, okBind, ih2, okBind]
      split
      · exact (hne _ _ rfl rfl).elim
      · rfl
  | Lt e1 e2 =>
    intro e' h
    rw [boPropagate] at h
    rcases h1 : fePropagate env fns e1 with a | r1 <;> rw [h1] at h
    · rw [errBind] at h
      cases h
    rw [okBind] at h
    rcases h2 : fePropagate env fns e2 with a | r2 <;> rw [h2] at h
    · rw [errBind] at h
      cases h
    rw [okBind] at h
    have ih1 := feFix env fns fns2 hEnv e1 r1 h1
    have ih2 := feFix env fns fns2 hEnv e2 r2 h2
    split at h
    · cases Except.ok.inj h
      rfl
    · rename_i hne
      cases Except.ok.inj h
      rw [boPropagate, ih1, okBind, ih2, okBind]
      split
      · exact (hne _ _ rfl rfl).elim
      · rfl
  | Le e1 e2 =>
    intro e' h
    rw [boPropagate] at h
    rcases h1 : fePropagate env fns e1 with a | r1 <;> rw [h1] at h
    · rw [errBind] at h
      cases h
    rw [okBind] at h
    rcases h2 : fePropagate env fns e2 with a | r2 <;> rw [h2] at h
    · rw [errBind] at h
      cases h
    rw [okBind] at h
    have ih1 := feFix env fns fns2 hEnv e1 r1 h1
    have ih2 := feFix env fns fns2 hEnv e2 r2 h2
    split at h
    · cases Except.ok.inj h
      rfl
    · rename_i hne
      cases Except.ok.inj h
      rw [boPropagate, ih1, okBind, ih2, okBind]
      split
      · exact (hne _ _ rfl rfl).elim
      · rfl
  | Gt e1 e2 =>
    intro e' h
    rw [boPropagate] at h
    rcases h1 : fePropagate env fns e1 with a | r1 <;> rw [h1] at h
    · rw [errBind] at h
      cases h
    rw [okBind] at h
    rcases h2 : fePropagate env fns e2 with a | r2 <;> rw [h2] at h
    · rw [errBind] at h
      cases h
    rw [okBind] at h
    have ih1 := feFix env fns fns2 hEnv e1 r1 h1
    have ih2 := feFix env fns fns2 hEnv e2 r2 h2
    split at h
    · cases Except.ok.inj h
      rfl
    · rename_i hne
      cases Except.ok.inj h
      rw [boPropagate, ih1, okBind, ih2, okBind]
      split
      · exact (hne _ _ rfl rfl).elim
      · rfl
  | Ge e1 e2 =>
    intro e' h
    rw [boPropagate] at h
    rcases h1 : fePropagate env fns e1 with a | r1 <;> rw [h1] at h
    · rw [errBind] at h
      cases h
    rw [okBind] at h
    rcases h2 : fePropagate env fns e2 with a | r2 <;> rw [h2] at h
    · rw [errBind] at h
      cases h
    rw [okBind] at h
    have ih1 := feFix env fns fns2 hEnv e1 r1 h1
    have ih2 := feFix env fns fns2 hEnv e2 r2 h2
    split at h
    · cases Except.ok.inj h
      rfl
    · rename_i hne
      cases Except.ok.inj h
      rw [boPropagate, ih1, okBind, ih2, okBind]
      split
      · exact (hne _ _ rfl rfl).elim
      · rfl

theorem faFix {p : Nat} [Fact (Nat.Prime p)] (env : Env p) (fns fns2 : List (TypedFunction p))
    (hEnv : envLit env = true) (e : FieldElementArrayExpression p) :
    ∀ e', faPropagate env fns e = .ok e' → faPropagate [] fns2 e' = .ok e' := by
  cases e with
  | Identifier size id =>
    intro e' h
    rw [faPropagate] at h
    split at h
    · rename_i heq
      cases Except.ok.inj h
      have hlit := envGet_lit hEnv heq
      cases e' with
      | Identifier s i => simp [isLiteral] at hlit
      | Value s v =>
        simp only [isLiteral] at hlit
        rw [faPropagate, feListPropagate_allNumber [] fns2 v hlit, okBind]
        rfl
    · cases h
    · cases Except.ok.inj h
      rfl
  | Value size exprs =>
    intro e' h
    rw [faPropagate] at h
    rcases hl : feListPropagate env fns exprs with a | rl <;> rw [hl] at h
    · rw [errBind] at h
      cases h
    rw [okBind] at h
    cases Except.ok.inj h
    have ihl := feListFix env fns fns2 hEnv exprs rl hl
    rw [faPropagate, ihl, okBind]
    rfl

theorem teFix {p : Nat} [Fact (Nat.Prime p)] (env : Env p) (fns fns2 : List (TypedFunction p))
    (hEnv : envLit env = true) (e : TypedExpression p) :
    ∀ e', tePropagate env fns e = .ok e' → tePropagate [] fns2 e' = .ok e' := by
  cases e with
  | FieldElement e0 =>
    intro e' h
    rw [tePropagate] at h
    rcases h1 : fePropagate env fns e0 with a | r <;> rw [h1] at h
    · rw [errBind] at h
      cases h
    rw [okBind] at h
    cases Except.ok.inj h
    rw [tePropagate, feFix env fns fns2 hEnv e0 r h1, okBind]
    rfl
  | Boolean e0 =>
    intro e' h
    rw [tePropagate] at h
    rcases h1 : boPropagate env fns e0 with a | r <;> rw [h1] at h
    · rw [errBind] at h
      cases h
    rw [okBind] at h
    cases Except.ok.inj h
    rw [tePropagate, boFix env fns fns2 hEnv e0 r h1, okBind]
    rfl
  | FieldElementArray e0 =>
    intro e' h
    rw [tePropagate] at h
    rcases h1 : faPropagate env fns e0 with a | r <;> rw [h1] at h
    · rw [errBind] at h
      cases h
    rw [okBind] at h
    cases Except.ok.inj h
    rw [tePropagate, faFix env fns fns2 hEnv e0 r h1, okBind]
    rfl

theorem teListFix {p : Nat} [Fact (Nat.Prime p)] (env : Env p) (fns fns2 : List (TypedFunction p))
    (hEnv : envLit env = true) (l : List (TypedExpression p)) :
    ∀ l', teListPropagate env fns l = .ok l' → teListPropagate [] fns2 l' = .ok l' := by
  cases l with
  | nil =>
    intro l' h
    rw [teListPropagate] at h
    cases Except.ok.inj h
    rfl
  | cons e rest =>
    intro l' h
    rw [teListPropagate] at h
    rcases h1 : tePropagate env fns e with a | r <;> rw [h1] at h
    · rw [errBind] at h
      cases h
    rw [okBind] at h
    rcases h2 : teListPropagate env fns rest with a | rl <;> rw [h2] at h
    · rw [errBind] at h
      cases h
    rw [okBind] at h
    cases Except.ok.inj h
    rw [teListPropagate, teFix env fns fns2 hEnv e r h1, okBind,
      teListFix env fns fns2 hEnv rest rl h2, okBind]
    rfl

theorem feListFix {p : Nat} [Fact (Nat.Prime p)] (env : Env p) (fns fns2 : List (TypedFunction p))
    (hEnv : envLit env = true) (l : List (FieldElementExpression p)) :
    ∀ l', feListPropagate env fns l = .ok l' → feListPropagate [] fns2 l' = .ok l' := by
  cases l with
  | nil =>
    intro l' h
    rw [feListPropagate] at h
    cases Except.ok.inj h
    rfl
  | cons e rest =>
    intro l' h
    rw [feListPropagate] at h
    rcases h1 : fePropagate env fns e with a | r <;> rw [h1] at h
    · rw [errBind] at h
      cases h
    rw [okBind] at h
    rcases h2 : feListPropagate env fns rest with a | rl <;> rw [h2] at h
    · rw [errBind] at h
      cases h
    rw [okBind] at h
    cases Except.ok.inj h
    rw [feListPropagate, feFix env fns fns2 hEnv e r h1, okBind,
      feListFix env fns fns2 hEnv rest rl h2, okBind]
    rfl

end

/-- Expression-list propagation results are fixed points. -/
theorem telFix {p : Nat} [Fact (Nat.Prime p)] (env : Env p) (fns fns2 : List (TypedFunction p))
    (hEnv : envLit env = true) (l : TypedExpressionList p) :
    ∀ l', telPropagate env fns l = .ok l' → telPropagate [] fns2 l' = .ok l' := by
  cases l with
  | FunctionCall id arguments types =>
    intro l' h
    rw [telPropagate] at h
    rcases hl : teListPropagate env fns arguments with a | rl <;> rw [hl] at h
    · rw [errBind] at h
      cases h
    rw [okBind] at h
    cases Except.ok.inj h
    rw [telPropagate, teListFix env fns fns2 hEnv arguments rl hl, okBind]
    rfl

/-- The per-statement invariant: starting from a fully-literal environment,
one step of statement propagation yields a fully-literal environment, and
any emitted statement is a fixed point of statement propagation under the
empty environment (it re-emits itself and leaves the environment empty). -/
theorem stFix {p : Nat} [Fact (Nat.Prime p)] (env : Env p) (fns : List (TypedFunction p))
    (hEnv : envLit env = true) (s : TypedStatement p) (env' : Env p)
    (out : Option (TypedStatement p)) (h : stPropagate env fns s = .ok (env', out)) :
    envLit env' = true ∧
      ∀ o, out = some o → ∀ fns2, stPropagate ([] : Env p) fns2 o = .ok ([], some o) := by
  cases s with
  | Return expressions =>
    rw [stPropagate] at h
    rcases hl : teListPropagate env fns expressions with a | rl <;> rw [hl] at h
    · rw [errBind] at h
      cases h
    rw [okBind] at h
    cases Except.ok.inj h
    refine ⟨hEnv, ?_⟩
    intro o ho fns2
    cases Option.some.inj ho
    rw [stPropagate, teListFix env fns fns2 hEnv expressions rl hl, okBind]
    rfl
  | Definition assignee expr =>
    cases assignee with
    | Identifier var =>
      rw [stPropagate] at h
      rcases he : tePropagate env fns expr with a | e1 <;> rw [he] at h
      · rw [errBind] at h
        cases h
      rw [okBind] at h
      have ihe : ∀ fns2, tePropagate ([] : Env p) fns2 e1 = .ok e1 :=
        fun fns2 => teFix env fns fns2 hEnv expr e1 he
      split at h
      · cases Except.ok.inj h
        exact ⟨envLit_insert hEnv rfl, fun o ho => by cases ho⟩
      · cases Except.ok.inj h
        exact ⟨envLit_insert hEnv rfl, fun o ho => by cases ho⟩
      · rename_i size arr
        split at h
        · rename_i hall
          cases Except.ok.inj h
          refine ⟨envLit_insert hEnv ?_, fun o ho => by cases ho⟩
          simpa [isLiteral] using hall
        · rename_i hall
          cases Except.ok.inj h
          refine ⟨hEnv, ?_⟩
          intro o ho fns2
          cases Option.some.inj ho
          rw [stPropagate, ihe fns2, okBind]
          change (if arr.all isNumber = true then _ else _) = _
          rw [if_neg hall]
          rfl
      · rename_i hne1 hne2 hne3
        cases Except.ok.inj h
        refine ⟨hEnv, ?_⟩
        intro o ho fns2
        cases Option.some.inj ho
        rw [stPropagate, ihe fns2, okBind]
        split
        · exact (hne1 _ rfl).elim
        · exact (hne2 _ rfl).elim
        · exact (hne3 _ _ rfl).elim
        · rfl
    | ArrayElement base index =>
      cases base with
      | Identifier var =>
        rw [stPropagate] at h
        rcases hi : fePropagate env fns index with a | ri <;> rw [hi] at h
        · rw [errBind] at h
          cases h
        rw [okBind] at h
        rcases he : tePropagate env fns expr with a | re <;> rw [he] at h
        · rw [errBind] at h
          cases h
        rw [okBind] at h
        have ihi : ∀ fns2, fePropagate ([] : Env p) fns2 ri = .ok ri :=
          fun fns2 => feFix env fns fns2 hEnv index ri hi
        have ihe : ∀ fns2, tePropagate ([] : Env p) fns2 re = .ok re :=
          fun fns2 => teFix env fns fns2 hEnv expr re he
        split at h
        · split at h
          · cases Except.ok.inj h
            exact ⟨hEnv, fun o ho => by cases ho⟩
          · rename_i size v hget
            split at h
            · split at h
              · cases Except.ok.inj h
                have hlit := envGet_lit hEnv hget
                simp only [isLiteral] at hlit
                refine ⟨envLit_insert hEnv ?_, fun o ho => by cases ho⟩
                simp only [isLiteral]
                exact all_isNumber_set hlit _ _
              · cases h
            · cases h
          · cases h
        · rename_i hne
          cases Except.ok.inj h
          refine ⟨envLit_filter _ hEnv, ?_⟩
          intro o ho fns2
          cases Option.some.inj ho
          rw [stPropagate, ihi fns2, okBind, ihe fns2, okBind]
          split
          · exact (hne _ _ rfl rfl).elim
          · rfl
      | ArrayElement b i =>
        cases Except.ok.inj h
        refine ⟨hEnv, ?_⟩
        intro o ho fns2
        cases Option.some.inj ho
        rfl
  | Declaration v =>
    cases Except.ok.inj h
    refine ⟨hEnv, ?_⟩
    intro o ho fns2
    cases Option.some.inj ho
    rfl
  | Condition e1 e2 =>
    rw [stPropagate] at h
    rcases h1 : tePropagate env fns e1 with a | r1 <;> rw [h1] at h
    · rw [errBind] at h
      cases h
    rw [okBind] at h
    rcases h2 : tePropagate env fns e2 with a | r2 <;> rw [h2] at h
    · rw [errBind] at h
      cases h
    rw [okBind] at h
    cases Except.ok.inj h
    refine ⟨hEnv, ?_⟩
    intro o ho fns2
    cases Option.some.inj ho
    rw [stPropagate, teFix env fns fns2 hEnv e1 r1 h1, okBind,
      teFix env fns fns2 hEnv e2 r2 h2, okBind]
    rfl
  | For v a b body =>
    rw [stPropagate] at h
    cases h
  | MultipleDefinition vars l =>
    rw [stPropagate] at h
    rcases hl : telPropagate env fns l with a | rl <;> rw [hl] at h
    · rw [errBind] at h
      cases h
    rw [okBind] at h
    cases Except.ok.inj h
    refine ⟨hEnv, ?_⟩
    intro o ho fns2
    cases Option.some.inj ho
    rw [stPropagate, telFix env fns fns2 hEnv l rl hl, okBind]
    rfl

/-- Statement-list propagation: a fully-literal environment stays fully
literal, and the emitted output list is a fixed point of statement-list
propagation started from the empty environment. -/
theorem stListFix {p : Nat} [Fact (Nat.Prime p)] (fns : List (TypedFunction p))
    (ss : List (TypedStatement p)) :
    ∀ env env' outs, envLit env = true → stListPropagate fns env ss = .ok (env', outs) →
      envLit env' = true ∧
        ∀ fns2, stListPropagate fns2 ([] : Env p) outs = .ok ([], outs) := by
  induction ss with
  | nil =>
    intro env env' outs hEnv h
    rw [stListPropagate] at h
    cases Except.ok.inj h
    exact ⟨hEnv, fun fns2 => rfl⟩
  | cons s rest ih =>
    intro env env' outs hEnv h
    rw [stListPropagate] at h
    rcases h1 : stPropagate env fns s with a | pr <;> rw [h1] at h
    · rw [errBind] at h
      cases h
    rw [okBind] at h
    obtain ⟨env1, out⟩ := pr
    simp only [] at h
    rcases h2 : stListPropagate fns env1 rest with a | pr2 <;> rw [h2] at h
    · rw [errBind] at h
      cases h
    rw [okBind] at h
    obtain ⟨env2, outs2⟩ := pr2
    simp only [] at h
    obtain ⟨hEnv1, hfix⟩ := stFix env fns hEnv s env1 out h1
    obtain ⟨hEnv2, hfix2⟩ := ih env1 env2 outs2 hEnv1 h2
    cases Except.ok.inj h
    refine ⟨hEnv2, ?_⟩
    intro fns2
    cases out with
    | none => exact hfix2 fns2
    | some o =>
      show stListPropagate fns2 ([] : Env p) (o :: outs2) = .ok ([], o :: outs2)
      rw [stListPropagate, hfix o rfl fns2, okBind]
      simp only []
      rw [hfix2 fns2, okBind]
      simp only []
      rfl

/-- Function-level fixed point: propagating a function yields a function
that propagates to itself under any function context. -/
theorem fnFix {p : Nat} [Fact (Nat.Prime p)] (fns : List (TypedFunction p))
    (f f' : TypedFunction p) (h : fnPropagate fns f = .ok f') :
    ∀ fns2, fnPropagate fns2 f' = .ok f' := by
  rw [fnPropagate] at h
  rcases h1 : stListPropagate fns [] f.statements with a | pr <;> rw [h1] at h
  · rw [errBind] at h
    cases h
  rw [okBind] at h
  obtain ⟨env1, outs⟩ := pr
  simp only [] at h
  cases Except.ok.inj h
  intro fns2
  obtain ⟨-, hfix⟩ := stListFix fns f.statements [] env1 outs rfl h1
  rw [fnPropagate,
    show ({ f with statements := outs } : TypedFunction p).statements = outs from rfl,
    hfix fns2, okBind]
  rfl

/-- Propagating a list of already-self-fixed functions appends them to the
accumulator unchanged. -/
theorem fnsSelf {p : Nat} [Fact (Nat.Prime p)] (l : List (TypedFunction p))
    (hl : ∀ f ∈ l, ∀ fns2, fnPropagate fns2 f = .ok f) :
    ∀ acc, fnsPropagate l acc = .ok (acc ++ l) := by
  induction l with
  | nil =>
    intro acc
    rw [fnsPropagate]
    simp
  | cons f rest ih =>
    intro acc
    rw [fnsPropagate, hl f (by simp) acc, okBind,
      ih (fun g hg fns2 => hl g (by simp [hg]) fns2) (acc ++ [f])]
    simp

/-- Every function produced by the program-level loop is self-fixed. -/
theorem fnsFix {p : Nat} [Fact (Nat.Prime p)] (l : List (TypedFunction p)) :
    ∀ acc r, (∀ f ∈ acc, ∀ fns2, fnPropagate fns2 f = .ok f) →
      fnsPropagate l acc = .ok r → ∀ f ∈ r, ∀ fns2, fnPropagate fns2 f = .ok f := by
  induction l with
  | nil =>
    intro acc r hacc h
    rw [fnsPropagate] at h
    cases Except.ok.inj h
    exact hacc
  | cons f rest ih =>
    intro acc r hacc h
    rw [fnsPropagate] at h
    rcases h1 : fnPropagate acc f with a | f' <;> rw [h1] at h
    · rw [errBind] at h
      cases h
    rw [okBind] at h
    refine ih (acc ++ [f']) r ?_ h
    intro g hg fns2
    rcases List.mem_append.mp hg with hg | hg
    · exact hacc g hg fns2
    · rcases List.mem_singleton.mp hg with rfl
      exact fnFix acc f g h1 fns2

/-- Program-level idempotence of the pass. -/
theorem progPropagate_idem {p : Nat} [Fact (Nat.Prime p)] (P Q : TypedProg p)
    (h : progPropagate P = .ok Q) : progPropagate Q = .ok Q := by
  rw [progPropagate] at h
  rcases h1 : fnsPropagate P.functions [] with a | r <;> rw [h1] at h
  · rw [errBind] at h
    cases h
  rw [okBind] at h
  cases Except.ok.inj h
  have hall := fnsFix P.functions [] r (by intro f hf; cases hf) h1
  rw [progPropagate,
    show ({ P with functions := r } : TypedProg p).functions = r from rfl,
    fnsSelf r hall [], okBind]
  rfl

/-! ### Environment keys are always `Identifier` assignees -/

theorem envKeysId_filter {p : Nat} {env : Env p}
    (f : TypedAssignee p × TypedExpression p → Bool) (hK : envKeysId env = true) :
    envKeysId (env.filter f) = true := by
  simp only [envKeysId, List.all_eq_true] at hK ⊢
  exact fun kv hkv => hK kv (List.mem_of_mem_filter hkv)

theorem envKeysId_insert {p : Nat} {env : Env p} {var : Variable} {v : TypedExpression p}
    (hK : envKeysId env = true) :
    envKeysId (envInsert env (.Identifier var) v) = true := by
  simp only [envInsert, envKeysId, List.all_cons, Bool.and_eq_true]
  exact ⟨trivial, envKeysId_filter _ hK⟩

/-- In an environment whose keys are all `Identifier` assignees, looking up
an `ArrayElement` assignee always misses. -/
theorem envKeysId_get_arrayElement {p : Nat} {env : Env p}
    (hK : envKeysId env = true) (b : TypedAssignee p) (i : FieldElementExpression p) :
    envGet env (.ArrayElement b i) = none := by
  induction env with
  | nil => rfl
  | cons kv rest ih =>
    simp only [envKeysId, List.all_cons, Bool.and_eq_true] at hK
    obtain ⟨hk, hrest⟩ := hK
    rw [envGet]
    obtain ⟨k, v⟩ := kv
    cases k with
    | Identifier w =>
      rw [if_neg (by simp [taBeq])]
      exact ih hrest
    | ArrayElement b2 i2 => simp at hk

/-- The environment after one statement step is the old environment, an
insertion at an `Identifier` key, or a removal at an `Identifier` key. -/
theorem stEnvShape {p : Nat} [Fact (Nat.Prime p)] (env : Env p)
    (fns : List (TypedFunction p)) (s : TypedStatement p) (env' : Env p)
    (out : Option (TypedStatement p)) (h : stPropagate env fns s = .ok (env', out)) :
    env' = env ∨ (∃ var v, env' = envInsert env (.Identifier var) v) ∨
      (∃ var, env' = envRemove env (.Identifier var)) := by
  cases s with
  | Return expressions =>
    rw [stPropagate] at h
    rcases hl : teListPropagate env fns expressions with a | rl <;> rw [hl] at h
    · rw [errBind] at h
      cases h
    rw [okBind] at h
    cases Except.ok.inj h
    exact Or.inl rfl
  | Definition assignee expr =>
    cases assignee with
    | Identifier var =>
      rw [stPropagate] at h
      rcases he : tePropagate env fns expr with a | e1 <;> rw [he] at h
      · rw [errBind] at h
        cases h
      rw [okBind] at h
      split at h
      · cases Except.ok.inj h
        exact Or.inr (Or.inl ⟨var, _, rfl⟩)
      · cases Except.ok.inj h
        exact Or.inr (Or.inl ⟨var, _, rfl⟩)
      · split at h
        · cases Except.ok.inj h
          exact Or.inr (Or.inl ⟨var, _, rfl⟩)
        · cases Except.ok.inj h
          exact Or.inl rfl
      · cases Except.ok.inj h
        exact Or.inl rfl
    | ArrayElement base index =>
      cases base with
      | Identifier var =>
        rw [stPropagate] at h
        rcases hi : fePropagate env fns index with a | ri <;> rw [hi] at h
        · rw [errBind] at h
          cases h
        rw [okBind] at h
        rcases he : tePropagate env fns expr with a | re <;> rw [he] at h
        · rw [errBind] at h
          cases h
        rw [okBind] at h
        split at h
        · split at h
          · cases Except.ok.inj h
            exact Or.inl rfl
          · split at h
            · split at h
              · cases Except.ok.inj h
                exact Or.inr (Or.inl ⟨var, _, rfl⟩)
              · cases h
            · cases h
          · cases h
        · cases Except.ok.inj h
          exact Or.inr (Or.inr ⟨var, rfl⟩)
      | ArrayElement b i =>
        cases Except.ok.inj h
        exact Or.inl rfl
  | Declaration v =>
    cases Except.ok.inj h
    exact Or.inl rfl
  | Condition e1 e2 =>
    rw [stPropagate] at h
    rcases h1 : tePropagate env fns e1 with a | r1 <;> rw [h1] at h
    · rw [errBind] at h
      cases h
    rw [okBind] at h
    rcases h2 : tePropagate env fns e2 with a | r2 <;> rw [h2] at h
    · rw [errBind] at h
      cases h
    rw [okBind] at h
    cases Except.ok.inj h
    exact Or.inl rfl
  | For v a b body =>
    rw [stPropagate] at h
    cases h
  | MultipleDefinition vars l =>
    rw [stPropagate] at h
    rcases hl : telPropagate env fns l with a | rl <;> rw [hl] at h
    · rw [errBind] at h
      cases h
    rw [okBind] at h
    cases Except.ok.inj h
    exact Or.inl rfl

/-! ### The claims -/

instance : Fact (Nat.Prime 7) := ⟨by norm_num⟩

/-- The constant-folding step shared by the binary operator cases of
`FieldElementExpression::propagate`: two `Number` operands are folded with
`op`, anything else is reassembled with the constructor `mk`. -/
def numFold {p : Nat} (op : ZMod p -> ZMod p -> ZMod p)
    (mk : FieldElementExpression p -> FieldElementExpression p -> FieldElementExpression p) :
    FieldElementExpression p -> FieldElementExpression p -> FieldElementExpression p
  | .Number n1, .Number n2 => .Number (op n1 n2)
  | a, b => mk a b

/-- The branch-selection step of the `IfElse` case of
`FieldElementExpression::propagate`. -/
def condFold {p : Nat} (rt ra : FieldElementExpression p) :
    BooleanExpression p -> FieldElementExpression p
  | .Value true => rt
  | .Value false => ra
  | c => .IfElse c rt ra

/-- C1: For every typed program `P`, running the program-level propagation
twice gives the same result as running it once: if `propagate(P)` succeeds
with result `Q`, then `propagate(Q) = Q` (so
`propagate(propagate(P)) == propagate(P)`). -/
theorem C1_propagate_idempotent {p : Nat} [Fact (Nat.Prime p)] (P Q : TypedProg p)
    (h : progPropagate P = .ok Q) : progPropagate Q = .ok Q :=
  progPropagate_idem P Q h

/-- A concrete program for the C1 witness: `x = 2 + 3; return x`. -/
def exProg : TypedProg 7 :=
  { functions := [
    { id := "main"
      arguments := []
      returns := [ZType.FieldElement]
      statements := [
        .Definition (.Identifier (.field_element "x"))
          (.FieldElement (.Add (.Number 2) (.Number 3))),
        .Return [.FieldElement (.Identifier "x")] ] } ] }

/-- The propagated form of `exProg`: `return 5`. -/
def exProgOut : TypedProg 7 :=
  { functions := [
    { id := "main"
      arguments := []
      returns := [ZType.FieldElement]
      statements := [ .Return [.FieldElement (.Number 5)] ] } ] }

theorem C1_witness :
    progPropagate exProg = .ok exProgOut ∧ progPropagate exProgOut = .ok exProgOut :=
  ⟨rfl, C1_propagate_idempotent exProg exProgOut rfl⟩

/-- C2: propagating any sequence of statements in order starting from the
empty environment yields an environment every binding of which is fully
literal: a `BooleanExpression.Value`, a `FieldElementExpression.Number`,
or a `FieldElementArrayExpression.Value` all of whose elements are
`Number`s. Quantifying over all statement lists covers every statement
boundary (take the prefix ending there). -/
theorem C2_env_literal {p : Nat} [Fact (Nat.Prime p)] (fns : List (TypedFunction p))
    (ss : List (TypedStatement p)) (env' : Env p) (outs : List (TypedStatement p))
    (h : stListPropagate fns [] ss = .ok (env', outs)) : envLit env' = true :=
  (stListFix fns ss [] env' outs rfl h).1

/-- Statements for the C2 witness: `x = 2 + 3; a = [1, x]`. -/
def exStmts : List (TypedStatement 7) :=
  [.Definition (.Identifier (.field_element "x"))
      (.FieldElement (.Add (.Number 2) (.Number 3))),
   .Definition (.Identifier (.field_array "a" 2))
      (.FieldElementArray (.Value 2 [.Number 1, .Identifier "x"]))]

/-- The environment after `exStmts`: `a ↦ [1, 5]`, `x ↦ 5`, all literal. -/
def exEnv : Env 7 :=
  [(.Identifier (.field_array "a" 2), .FieldElementArray (.Value 2 [.Number 1, .Number 5])),
   (.Identifier (.field_element "x"), .FieldElement (.Number 5))]

theorem C2_witness :
    stListPropagate ([] : List (TypedFunction 7)) [] exStmts = .ok (exEnv, []) ∧
      envLit exEnv = true :=
  ⟨rfl, C2_env_literal [] exStmts exEnv [] rfl⟩

/-- C3: for each binary field operator, propagation first propagates both
operands; if both reduce to `Number`s the exact field operation is applied
(`Pow` reads its exponent through the integer representative `ZMod.val`,
the decimal rendering), otherwise the same constructor is reassembled
around the propagated operands. -/
theorem C3_arithmetic {p : Nat} [Fact (Nat.Prime p)] (env : Env p)
    (fns : List (TypedFunction p)) (e1 e2 r1 r2 : FieldElementExpression p)
    (h1 : fePropagate env fns e1 = .ok r1) (h2 : fePropagate env fns e2 = .ok r2) :
    fePropagate env fns (.Add e1 e2) = .ok (numFold (fun a b => a + b) .Add r1 r2) ∧
    fePropagate env fns (.Sub e1 e2) = .ok (numFold (fun a b => a - b) .Sub r1 r2) ∧
    fePropagate env fns (.Mult e1 e2) = .ok (numFold (fun a b => a * b) .Mult r1 r2) ∧
    fePropagate env fns (.Div e1 e2) = .ok (numFold (fun a b => a / b) .Div r1 r2) ∧
    fePropagate env fns (.Pow e1 e2) = .ok (numFold (fun a b => a ^ b.val) .Pow r1 r2) := by
  refine ⟨?_, ?_, ?_, ?_, ?_⟩
  · rw [fePropagate, h1, okBind, h2, okBind]
    cases r1 <;> cases r2 <;> rfl
  · rw [fePropagate, h1, okBind, h2, okBind]
    cases r1 <;> cases r2 <;> rfl
  · rw [fePropagate, h1, okBind, h2, okBind]
    cases r1 <;> cases r2 <;> rfl
  · rw [fePropagate, h1, okBind, h2, okBind]
    cases r1 <;> cases r2 <;> rfl
  · rw [fePropagate, h1, okBind, h2, okBind]
    cases r1 <;> cases r2 <;> rfl

theorem C3_witness :
    fePropagate ([] : Env 7) [] (.Add (.Number 2) (.Number 3)) = .ok (.Number 5) ∧
      fePropagate ([] : Env 7) [] (.Pow (.Number 2) (.Number 3)) = .ok (.Number 1) :=
  ⟨(C3_arithmetic [] [] (.Number 2) (.Number 3) (.Number 2) (.Number 3) rfl rfl).1,
   (C3_arithmetic [] [] (.Number 2) (.Number 3) (.Number 2) (.Number 3) rfl rfl).2.2.2.2⟩

/-- C4: `IfElse` propagates both the consequence and the alternative
unconditionally (an error in either arm surfaces even if the condition
would have discarded that arm), then propagates the condition; a condition
reduced to `Value true` (resp. `false`) selects the propagated consequence
(resp. alternative), otherwise the `IfElse` is reassembled from the three
propagated parts. -/
theorem C4_ifelse {p : Nat} [Fact (Nat.Prime p)] (env : Env p)
    (fns : List (TypedFunction p)) (c : BooleanExpression p)
    (t a : FieldElementExpression p) :
    (∀ rt ra rc, fePropagate env fns t = .ok rt → fePropagate env fns a = .ok ra →
      boPropagate env fns c = .ok rc →
      fePropagate env fns (.IfElse c t a) = .ok (condFold rt ra rc)) ∧
    (∀ err, fePropagate env fns t = .error err →
      fePropagate env fns (.IfElse c t a) = .error err) ∧
    (∀ rt err, fePropagate env fns t = .ok rt → fePropagate env fns a = .error err →
      fePropagate env fns (.IfElse c t a) = .error err) := by
  refine ⟨?_, ?_, ?_⟩
  · intro rt ra rc ht ha hc
    rw [fePropagate, ht, okBind, ha, okBind, hc, okBind]
    cases rc with
    | Value v => cases v <;> rfl
    | Identifier i => rfl
    | Eq x y => rfl
    | Lt x y => rfl
    | Le x y => rfl
    | Gt x y => rfl
    | Ge x y => rfl
  · intro err ht
    rw [fePropagate, ht, errBind]
  · intro rt err ht ha
    rw [fePropagate, ht, okBind, ha, errBind]

theorem C4_witness :
    fePropagate ([] : Env 7) [] (.IfElse (.Value true) (.Number 2) (.Number 3)) = .ok (.Number 2) ∧
      fePropagate ([] : Env 7) []
          (.IfElse (.Identifier "c") (.Number 2) (.Number 3)) =
        .ok (.IfElse (.Identifier "c") (.Number 2) (.Number 3)) :=
  ⟨(C4_ifelse [] [] (.Value true) (.Number 2) (.Number 3)).1 _ _ _ rfl rfl rfl,
   (C4_ifelse [] [] (.Identifier "c") (.Number 2) (.Number 3)).1 _ _ _ rfl rfl rfl⟩

/-- C5: a `Select` whose array propagates to a literal `Value(size, v)`
(with the data-model invariant `len(v) = size`) and whose index propagates
to `Number(n)` reads the index as the non-negative integer `n.val` (the
decimal representative); in bounds it returns element `v[n.val]`, out of
bounds the pass fails with `OutOfBounds`. -/
theorem C5_select_literal {p : Nat} [Fact (Nat.Prime p)] (env : Env p)
    (fns : List (TypedFunction p)) (arr : FieldElementArrayExpression p)
    (idx : FieldElementExpression p) (size : Nat)
    (v : List (FieldElementExpression p)) (n : ZMod p)
    (ha : faPropagate env fns arr = .ok (.Value size v))
    (hi : fePropagate env fns idx = .ok (.Number n))
    (hlen : v.length = size) :
    (∀ hlt : n.val < size,
      fePropagate env fns (.Select arr idx) = .ok (v.get ⟨n.val, hlen.symm ▸ hlt⟩)) ∧
    (size ≤ n.val → fePropagate env fns (.Select arr idx) = .error .OutOfBounds) := by
  constructor
  · intro hlt
    rw [fePropagate, ha, okBind, hi, okBind]
    simp only []
    rw [if_pos hlt, List.get?_eq_get (hlen.symm ▸ hlt)]
    rfl
  · intro hge
    rw [fePropagate, ha, okBind, hi, okBind]
    simp only []
    rw [if_neg (by omega)]

theorem C5_witness :
    (1 + 1 : ZMod 7).val < 3 ∧
      fePropagate ([] : Env 7) []
          (.Select (.Value 3 [.Number 1, .Number 2, .Number 3])
            (.Add (.Number 1) (.Number 1))) = .ok (.Number 3) ∧
      fePropagate ([] : Env 7) []
          (.Select (.Value 3 [.Number 1, .Number 2, .Number 3]) (.Number 5)) =
        .error .OutOfBounds :=
  ⟨by decide,
   (C5_select_literal [] [] (.Value 3 [.Number 1, .Number 2, .Number 3])
      (.Add (.Number 1) (.Number 1)) 3 [.Number 1, .Number 2, .Number 3]
      (1 + 1) rfl rfl rfl).1 (by decide),
   (C5_select_literal [] [] (.Value 3 [.Number 1, .Number 2, .Number 3])
      (.Number 5) 3 [.Number 1, .Number 2, .Number 3]
      5 rfl rfl rfl).2 (by decide)⟩

/-- The lookup performed by `Select` on an identifier array with a constant
index (propagation.rs lines 101-109), as a named result. -/
def selectIdLookup {p : Nat} (env : Env p) (size : Nat) (id : String) (n : ZMod p) :
    Except PropError (FieldElementExpression p) :=
  match envGet env (.ArrayElement (.Identifier (.field_array id size)) (.Number n)) with
  | some (.FieldElement e) => .ok e
  | some _ => .error .TypeInvariant
  | none => .ok (.Select (.Identifier size id) (.Number n))

/-- An environment holding a *non-field* value at an array-element key:
the input on which the C6 claim and the code disagree. -/
def exEnvC6 : Env 7 :=
  [(.ArrayElement (.Identifier (.field_array "a" 1)) (.Number 0), .Boolean (.Value true))]

/-- C6 counterexample: with the array-element key bound to a boolean value,
the code panics (`TypeInvariant`, the `_ => panic!("")` arm at
propagation.rs line 105) instead of returning the unresolved `Select` as
the claim states. -/
theorem C6_counterexample :
    fePropagate exEnvC6 [] (.Select (.Identifier 1 "a") (.Number 0)) =
        .error .TypeInvariant ∧
      fePropagate exEnvC6 [] (.Select (.Identifier 1 "a") (.Number 0)) ≠
        .ok (.Select (.Identifier 1 "a") (.Number 0)) := by
  refine ⟨rfl, ?_⟩
  intro hc
  rw [show fePropagate exEnvC6 [] (.Select (.Identifier 1 "a") (.Number 0)) =
      .error .TypeInvariant from rfl] at hc
  cases hc

/-- C6 (amended): for a `Select` whose array propagates to
`Identifier(size, id)` and whose index propagates to `Number(n)`, the
environment is looked up at the array-element assignee
`ArrayElement(Identifier(field_array(id, size)), Number(n))`; if an entry
with a field-element value is found that value is returned, if an entry
with a non-field value is found the pass fails with `TypeInvariant`, and
if no entry is found the unresolved `Select` is returned. -/
theorem C6_select_identifier {p : Nat} [Fact (Nat.Prime p)] (env : Env p)
    (fns : List (TypedFunction p)) (arr : FieldElementArrayExpression p)
    (idx : FieldElementExpression p) (size : Nat) (id : String) (n : ZMod p)
    (ha : faPropagate env fns arr = .ok (.Identifier size id))
    (hi : fePropagate env fns idx = .ok (.Number n)) :
    fePropagate env fns (.Select arr idx) = selectIdLookup env size id n := by
  rw [fePropagate, ha, okBind, hi, okBind]
  rfl

theorem C6_witness :
    fePropagate ([] : Env 7) [] (.Select (.Identifier 2 "a") (.Number 1)) =
        .ok (.Select (.Identifier 2 "a") (.Number 1)) ∧
      fePropagate exEnvC6 [] (.Select (.Identifier 1 "a") (.Number 0)) =
        .error .TypeInvariant :=
  ⟨C6_select_identifier [] [] (.Identifier 2 "a") (.Number 1) 2 "a" 1 rfl rfl,
   C6_select_identifier exEnvC6 [] (.Identifier 1 "a") (.Number 0) 1 "a" 0 rfl rfl⟩

/-- C7: for `Definition(Identifier(var), expr)` whose right-hand side
propagates to an array literal `Value(size, elems)`: if every element is a
`Number` the variable is bound to the array and nothing is emitted;
otherwise a definition carrying the propagated array value is emitted and
the environment is left untouched. -/
theorem C7_definition_array {p : Nat} [Fact (Nat.Prime p)] (env : Env p)
    (fns : List (TypedFunction p)) (var : Variable) (expr : TypedExpression p)
    (size : Nat) (elems : List (FieldElementExpression p))
    (he : tePropagate env fns expr = .ok (.FieldElementArray (.Value size elems))) :
    stPropagate env fns (.Definition (.Identifier var) expr) =
      if elems.all isNumber then
        .ok (envInsert env (.Identifier var) (.FieldElementArray (.Value size elems)), none)
      else
        .ok (env, some (.Definition (.Identifier var)
          (.FieldElementArray (.Value size elems)))) := by
  rw [stPropagate, he, okBind]
  by_cases hall : elems.all isNumber = true
  · rw [if_pos hall]
    change (if elems.all isNumber = true then _ else _) = _
    rw [if_pos hall]
    rfl
  · rw [if_neg hall]
    change (if elems.all isNumber = true then _ else _) = _
    rw [if_neg hall]
    rfl

theorem C7_witness :
    stPropagate ([] : Env 7) []
        (.Definition (.Identifier (.field_array "a" 2))
          (.FieldElementArray (.Value 2 [.Number 1, .Identifier "y"]))) =
      .ok ([], some (.Definition (.Identifier (.field_array "a" 2))
        (.FieldElementArray (.Value 2 [.Number 1, .Identifier "y"])))) :=
  C7_definition_array [] [] (.field_array "a" 2)
    (.FieldElementArray (.Value 2 [.Number 1, .Identifier "y"])) 2
    [.Number 1, .Identifier "y"] rfl

/-- C8: for `Definition(ArrayElement(Identifier(var), index), expr)` with
the index propagating to `Number(n)` and the expression to a field
`Number(m)`: when `var` is unbound nothing happens and nothing is emitted;
when `var` is bound to a literal array (satisfying the length invariant)
the element at `n.val` is replaced in place and nothing is emitted, with
`OutOfBounds` when `n.val ≥ size`; when `var` is bound to anything that is
not an array literal, the pass fails with `TypeInvariant`. -/
theorem C8_array_element_update {p : Nat} [Fact (Nat.Prime p)] (env : Env p)
    (fns : List (TypedFunction p)) (var : Variable)
    (index : FieldElementExpression p) (expr : TypedExpression p) (n m : ZMod p)
    (hi : fePropagate env fns index = .ok (.Number n))
    (he : tePropagate env fns expr = .ok (.FieldElement (.Number m))) :
    (envGet env (.Identifier var) = none →
      stPropagate env fns (.Definition (.ArrayElement (.Identifier var) index) expr) =
        .ok (env, none)) ∧
    (∀ size v, envGet env (.Identifier var) = some (.FieldElementArray (.Value size v)) →
      v.length = size →
      (n.val < size →
        stPropagate env fns (.Definition (.ArrayElement (.Identifier var) index) expr) =
          .ok (envInsert env (.Identifier var)
            (.FieldElementArray (.Value size (v.set n.val (.Number m)))), none)) ∧
      (size ≤ n.val →
        stPropagate env fns (.Definition (.ArrayElement (.Identifier var) index) expr) =
          .error .OutOfBounds)) ∧
    (∀ val, envGet env (.Identifier var) = some val →
      (∀ size v, val ≠ .FieldElementArray (.Value size v)) →
      stPropagate env fns (.Definition (.ArrayElement (.Identifier var) index) expr) =
        .error .TypeInvariant) := by
  refine ⟨?_, ?_, ?_⟩
  · intro hget
    rw [stPropagate, hi, okBind, he, okBind]
    simp only []
    rw [hget]
    rfl
  · intro size v hget hlen
    constructor
    · intro hlt
      rw [stPropagate, hi, okBind, he, okBind]
      simp only []
      rw [hget]
      simp only []
      rw [if_pos hlt, if_pos (show n.val < v.length by omega)]
      rfl
    · intro hge
      rw [stPropagate, hi, okBind, he, okBind]
      simp only []
      rw [hget]
      simp only []
      rw [if_neg (show ¬ n.val < size by omega)]
  · intro val hget hne
    rw [stPropagate, hi, okBind, he, okBind]
    simp only []
    rw [hget]
    cases val with
    | FieldElement e => rfl
    | Boolean e => rfl
    | FieldElementArray e0 =>
      cases e0 with
      | Identifier s i => rfl
      | Value s v => exact absurd rfl (hne s v)

/-- The environment for the C8 witness: `a ↦ [21, 22]`. -/
def exEnvC8 : Env 7 :=
  [(.Identifier (.field_array "a" 2),
    .FieldElementArray (.Value 2 [.Number 21, .Number 22]))]

theorem C8_witness :
    (1 : ZMod 7).val < 2 ∧
      stPropagate exEnvC8 []
          (.Definition (.ArrayElement (.Identifier (.field_array "a" 2)) (.Number 1))
            (.FieldElement (.Number 4))) =
        .ok (envInsert exEnvC8 (.Identifier (.field_array "a" 2))
          (.FieldElementArray (.Value 2 [.Number 21, .Number 4])), none) ∧
      stPropagate ([] : Env 7) []
          (.Definition (.ArrayElement (.Identifier (.field_array "a" 2)) (.Number 1))
            (.FieldElement (.Number 4))) =
        .ok ([], none) :=
  ⟨by decide,
   ((C8_array_element_update exEnvC8 [] (.field_array "a" 2) (.Number 1)
      (.FieldElement (.Number 4)) 1 4 rfl rfl).2.1 2 [.Number 21, .Number 22]
      rfl rfl).1 (by decide),
   (C8_array_element_update [] [] (.field_array "a" 2) (.Number 1)
      (.FieldElement (.Number 4)) 1 4 rfl rfl).1 rfl⟩

/-- C9: the pass only ever writes `Identifier` keys into the environment
(one statement step preserves the all-keys-are-identifiers invariant), and
consequently, in any such environment, the array-element lookup performed
by `Select` on an identifier array misses and the unresolved `Select` is
returned. -/
theorem C9_identifier_keys {p : Nat} [Fact (Nat.Prime p)] :
    (∀ (env : Env p) (fns : List (TypedFunction p)) (s : TypedStatement p)
      (env' : Env p) (out : Option (TypedStatement p)), envKeysId env = true →
      stPropagate env fns s = .ok (env', out) → envKeysId env' = true) ∧
    (∀ (env : Env p) (fns : List (TypedFunction p))
      (arr : FieldElementArrayExpression p) (idx : FieldElementExpression p)
      (size : Nat) (id : String) (n : ZMod p), envKeysId env = true →
      faPropagate env fns arr = .ok (.Identifier size id) →
      fePropagate env fns idx = .ok (.Number n) →
      fePropagate env fns (.Select arr idx) =
        .ok (.Select (.Identifier size id) (.Number n))) := by
  constructor
  · intro env fns s env' out hK h
    rcases stEnvShape env fns s env' out h with rfl | ⟨var, v, rfl⟩ | ⟨var, rfl⟩
    · exact hK
    · exact envKeysId_insert hK
    · exact envKeysId_filter _ hK
  · intro env fns arr idx size id n hK ha hi
    rw [fePropagate, ha, okBind, hi, okBind]
    simp only []
    rw [envKeysId_get_arrayElement hK]
    rfl

/-- The environment for the C9 witness: one `Identifier` key. -/
def exEnvC9 : Env 7 :=
  [(.Identifier (.field_element "x"), .FieldElement (.Number 3))]

theorem C9_witness :
    envKeysId exEnvC9 = true ∧
      fePropagate exEnvC9 [] (.Select (.Identifier 2 "a") (.Number 1)) =
        .ok (.Select (.Identifier 2 "a") (.Number 1)) :=
  ⟨(C9_identifier_keys (p := 7)).1 [] []
      (.Definition (.Identifier (.field_element "x")) (.FieldElement (.Number 3)))
      exEnvC9 none rfl rfl,
   (C9_identifier_keys (p := 7)).2 exEnvC9 [] (.Identifier 2 "a") (.Number 1)
      2 "a" 1 rfl rfl rfl⟩

/-- C10: statements not matched by the handled cases — a `Declaration`,
and a `Definition` whose assignee nesting is deeper than
`ArrayElement(Identifier, index)` — are emitted unchanged with their
sub-expressions not propagated, the environment is left unmodified, and no
error is raised. -/
theorem C10_unhandled_passthrough {p : Nat} [Fact (Nat.Prime p)] (env : Env p)
    (fns : List (TypedFunction p)) (v : Variable) (b : TypedAssignee p)
    (i idx : FieldElementExpression p) (e : TypedExpression p) :
    stPropagate env fns (.Declaration v) = .ok (env, some (.Declaration v)) ∧
    stPropagate env fns (.Definition (.ArrayElement (.ArrayElement b i) idx) e) =
      .ok (env, some (.Definition (.ArrayElement (.ArrayElement b i) idx) e)) :=
  ⟨rfl, rfl⟩

theorem C10_witness :
    stPropagate ([] : Env 7) [] (.Declaration (.field_element "x")) =
        .ok ([], some (.Declaration (.field_element "x"))) ∧
      stPropagate ([] : Env 7) []
          (.Definition
            (.ArrayElement (.ArrayElement (.Identifier (.field_array "a" 2)) (.Number 0))
              (.Number 1))
            (.FieldElement (.Number 2))) =
        .ok ([], some (.Definition
          (.ArrayElement (.ArrayElement (.Identifier (.field_array "a" 2)) (.Number 0))
            (.Number 1))
          (.FieldElement (.Number 2)))) :=
  C10_unhandled_passthrough [] [] (.field_element "x")
    (.Identifier (.field_array "a" 2)) (.Number 0) (.Number 1)
    (.FieldElement (.Number 2))

end ZoKrates
